import Mathlib

/-!
Shallow embedding of the ingestion / identifier-normalization / aggregation
pipeline of `src/main.py` (a Streamlit dashboard for a plant-growth
experiment across four schools).

Conventions of the embedding:
* A pandas dataframe row is an association list from column name to `Value`
  (numeric cells are exact rationals, text cells are strings); a dataframe is
  a `List Row`.  `df[col] = v` (for a whole column of a per-group frame, which
  in the source always assigns one constant value) is `setCol` mapped over the
  rows.  A missing cell / missing column reads as `none`, playing the role of
  pandas `NaN` / `KeyError` sites.
* `unicodedata.normalize 'NFC'` and `'NFD'` are external library functions;
  they are carried as explicit function parameters `nfc nfd : String → String`
  of every definition that uses them.  Theorems that depend on their behaviour
  assume only the canonical-normalization identities of the Unicode standard
  (idempotence, and that normalizing a normalized string in the other form
  gives that form of the original).
* The filesystem directory is a listing: a list of `EnvFile` (name plus the
  outcome of `pd.read_csv`, which may raise) resp. `GrowthFile` (name plus the
  outcome of opening the workbook and reading its sheets).
* The aggregation steps of `main()` (which in the source are inline pandas
  expressions) are named after the spec's operations (`summarizeEnvironment`,
  `summarizeGrowth`, `pickOptimal`, `merge`) but their bodies are translated
  from the pandas code: in particular growth summaries are produced by
  `groupby('EC')` (grouping by treatment level, whose keys pandas returns in
  ascending order) and the best level by `Series.idxmax` (first index
  attaining the maximum).
-/

namespace PolarPlant

/-- A cell value of a dataframe: an exact rational (the embedding of the
numeric columns) or a string (the school tag column). -/
inductive Value where
  | num : ℚ → Value
  | str : String → Value
deriving DecidableEq, Repr

/-- A dataframe row: association list from column name to cell value. -/
abbrev Row := List (String × Value)

/-- Read column `c` of a row; `none` models a missing column / NaN cell. -/
def getCol (r : Row) (c : String) : Option Value :=
  (r.find? (fun p => p.1 == c)).map Prod.snd

/-- `df[c] = v` restricted to one row: any existing `c` entry is replaced. -/
def setCol (r : Row) (c : String) (v : Value) : Row :=
  (r.filter (fun p => p.1 != c)) ++ [(c, v)]

/-- Numeric view of a cell. -/
def asNum : Value → Option ℚ
  | Value.num q => some q
  | Value.str _ => none

/-- `SCHOOL_INFO` of `src/main.py` (line 27): the treatment registry, mapping
each school (group id) to its target EC level, in source iteration order.
The display colors are not part of the core pipeline and are omitted. -/
def SCHOOL_INFO : List (String × ℚ) :=
  [("송도고", 1), ("하늘고", 2), ("아라고", 4), ("동산고", 8)]

/-! ## Identifier resolution (`normalize_filename`, lines 35–36 and 54–59) -/

/-- The dual-normalization match of lines 54–59 / 89–94 / 106–113: a candidate
name matches a target name if their NFC forms agree or their NFD forms agree. -/
def matchesTarget (nfc nfd : String → String) (candidate target : String) : Bool :=
  nfc candidate == nfc target || nfd candidate == nfd target

/-- `str.lower()` on a file name, written out over the character list
(the same map over characters that `String.toLower` performs). -/
def lowerStr (s : String) : String := String.mk (s.data.map Char.toLower)

/-- `endsWith` written out over the character lists. -/
def strEndsWith (s t : String) : Bool := t.data.isSuffixOf s.data

/-- Line 51: `file_path.suffix.lower() != '.csv'` skips the file.  A name whose
lower-cased extension is `.csv` passes; a bare `".csv"` has no stem and hence
no suffix in `pathlib`, so it is skipped. -/
def hasCsvSuffix (n : String) : Bool :=
  strEndsWith (lowerStr n) ".csv" && lowerStr n != ".csv"

/-- Line 56: the environment file name pattern for a school. -/
def envTarget (school : String) : String := school ++ "_환경데이터.csv"

/-- The per-candidate test of the environment-file scan (lines 51–59). -/
def envNameTest (nfc nfd : String → String) (target n : String) : Bool :=
  hasCsvSuffix n && matchesTarget nfc nfd n target

/-- Resolution of a logical name against a directory listing: the first
candidate passing the suffix filter and the dual-normalization match
(the `for file_path in data_dir.iterdir()` loop of lines 50–65). -/
def resolveEnv (nfc nfd : String → String) (dir : List String) (target : String) :
    Option String :=
  dir.find? (envNameTest nfc nfd target)

/-! ## Environment loader (`load_environment_data`, lines 39–72) -/

deriving instance DecidableEq for Except

/-- A directory entry for the environment scan: file name and the outcome of
`pd.read_csv` on it (`Except.error` embeds a raised exception). -/
structure EnvFile where
  name : String
  content : Except String (List Row)
deriving DecidableEq, Repr

/-- The test a directory entry must pass for school `s` (lines 51 and 59). -/
def envFileTest (nfc nfd : String → String) (s : String) (f : EnvFile) : Bool :=
  envNameTest nfc nfd (envTarget s) f.name

/-- The inner file loop of lines 50–67 for one school: the first matching file
whose read succeeds wins and its rows are tagged with the school
(`df['학교'] = school_name`, line 62); a matching file whose read raises is
reported and the scan continues (`found` stays false, no `break`). -/
def loadSchoolEnv (nfc nfd : String → String) (s : String) : List EnvFile → Option (List Row)
  | [] => none
  | f :: rest =>
    if envFileTest nfc nfd s f then
      match f.content with
      | Except.ok rows => some (rows.map (fun r => setCol r "학교" (Value.str s)))
      | Except.error _ => loadSchoolEnv nfc nfd s rest
    else loadSchoolEnv nfc nfd s rest

/-- `load_environment_data` (lines 39–72): for each registered school in
registry order, resolve and read its file; resolved schools go into the
mapping (in registry order, as Python dict insertion order), unresolved
schools produce a warning (line 70).  Returns (mapping, warnings). -/
def load_environment_data (nfc nfd : String → String) :
    List (String × ℚ) → List EnvFile → List (String × List Row) × List String
  | [], _ => ([], [])
  | (s, _) :: rest, dir =>
    let res := load_environment_data nfc nfd rest dir
    match loadSchoolEnv nfc nfd s dir with
    | some rows => ((s, rows) :: res.1, res.2)
    | none => (res.1, s :: res.2)

/-! ## Growth loader (`load_growth_data`, lines 75–123) -/

/-- A directory entry for the workbook scan: file name and the outcome of
opening it as a workbook (a list of sheets, each a named list of rows). -/
structure GrowthFile where
  name : String
  content : Except String (List (String × List Row))
deriving DecidableEq, Repr

/-- Lines 114–116: rows of a matched sheet are tagged with the school and its
registry EC level (`df['학교'] = school_name; df['EC'] = SCHOOL_INFO[...]`). -/
def tagGrowthRows (s : String) (ec : ℚ) (rows : List Row) : List Row :=
  rows.map (fun r => setCol (setCol r "학교" (Value.str s)) "EC" (Value.num ec))

/-- Python dict assignment `growth_data[school] = df`: replace the entry if
the key is present, otherwise append it. -/
def upsert (l : List (String × List Row)) (k : String) (v : List Row) :
    List (String × List Row) :=
  if l.any (fun p => p.1 == k) then
    l.map (fun p => if p.1 == k then (k, v) else p)
  else l ++ [(k, v)]

/-- The sheet loop of lines 105–118: each sheet whose name dual-normalization
matches a registered school (first such school, lines 109–113) contributes its
tagged rows under that school; unmatched sheets are ignored. -/
def load_growth_sheets (nfc nfd : String → String) (reg : List (String × ℚ)) :
    List (String × List Row) → List (String × List Row) → List (String × List Row)
  | acc, [] => acc
  | acc, (sn, rows) :: rest =>
    match reg.find? (fun q => matchesTarget nfc nfd sn q.1) with
    | some q => load_growth_sheets nfc nfd reg (upsert acc q.1 (tagGrowthRows q.1 q.2 rows)) rest
    | none => load_growth_sheets nfc nfd reg acc rest

/-- `load_growth_data` (lines 75–123): locate the single workbook by
dual-normalization match on its fixed name (first match wins, lines 85–96;
note: no `.xlsx` suffix filter), then process its sheets; a missing workbook
or a failed read yields the empty mapping. -/
def load_growth_data (nfc nfd : String → String) (reg : List (String × ℚ))
    (gdir : List GrowthFile) : List (String × List Row) :=
  match gdir.find? (fun f => matchesTarget nfc nfd f.name "4개교_생육결과데이터.xlsx") with
  | none => []
  | some f =>
    match f.content with
    | Except.error _ => []
    | Except.ok sheets => load_growth_sheets nfc nfd reg [] sheets

/-! ## Aggregation (inline pandas in `main()`) -/

/-- `pd.concat(mapping.values())` (lines 361 and 381): concatenation of the
per-group frames in mapping order; rows are kept verbatim. -/
def merge (M : List (String × List Row)) : List Row :=
  (M.map Prod.snd).flatten

/-- Exact rational addition, written through `mkRat` (proved equal to `+` in
`qAdd_eq_add` below). -/
def qAdd (a b : ℚ) : ℚ :=
  mkRat (a.num * (b.den : ℤ) + b.num * (a.den : ℤ)) (a.den * b.den)

/-- Exact division of a rational by a natural number, written through `mkRat`
(proved equal to `/` in `qDivNat_eq_div` below). -/
def qDivNat (a : ℚ) (n : ℕ) : ℚ := mkRat a.num (a.den * n)

/-- Sum of a list of rationals (proved equal to `List.sum` below). -/
def sumQ : List ℚ → ℚ
  | [] => 0
  | a :: t => qAdd a (sumQ t)

theorem qAdd_eq_add (a b : ℚ) : qAdd a b = a + b := by
  rw [qAdd, Rat.mkRat_eq_div]
  push_cast
  conv_rhs => rw [← Rat.num_div_den a, ← Rat.num_div_den b]
  have ha : ((a.den : ℚ)) ≠ 0 := by positivity
  have hb : ((b.den : ℚ)) ≠ 0 := by positivity
  field_simp

theorem qDivNat_eq_div (a : ℚ) (n : ℕ) : qDivNat a n = a / n := by
  rw [qDivNat, Rat.mkRat_eq_div]
  push_cast
  rw [div_mul_eq_div_div, Rat.num_div_den]

theorem sumQ_eq_sum (l : List ℚ) : sumQ l = l.sum := by
  induction l with
  | nil => rfl
  | cons a t ih => rw [sumQ, qAdd_eq_add, ih, List.sum_cons]

/-- Column mean (`df[c].mean()`): the arithmetic mean of the numeric cells of
column `c`; `none` models the NaN produced on an empty column. -/
def meanCol (rs : List Row) (c : String) : Option ℚ :=
  let vs := rs.filterMap (fun r => (getCol r c).bind asNum)
  if vs.isEmpty then none else some (qDivNat (sumQ vs) vs.length)

/-- `meanCol` is the arithmetic mean `sum / count` of the numeric cells. -/
theorem meanCol_eq_mean (rs : List Row) (c : String) :
    meanCol rs c =
      (let vs := rs.filterMap (fun r => (getCol r c).bind asNum)
       if vs.isEmpty then none else some (vs.sum / (vs.length : ℚ))) := by
  rw [meanCol]
  by_cases h : (rs.filterMap (fun r => (getCol r c).bind asNum)).isEmpty <;>
    simp [h, qDivNat_eq_div, sumQ_eq_sum]

/-- The grouping key of `groupby('EC')`: the numeric EC cell of a row. -/
def ecOfRow (r : Row) : Option ℚ := (getCol r "EC").bind asNum

/-- Insertion into a `≤`-sorted list of rationals. -/
def insertLe (a : ℚ) : List ℚ → List ℚ
  | [] => [a]
  | b :: t => if a ≤ b then a :: b :: t else b :: insertLe a t

/-- Insertion sort; pandas `groupby` returns its group keys in ascending
order, which this realises for the (duplicate-free) key list. -/
def sortLe : List ℚ → List ℚ
  | [] => []
  | a :: t => insertLe a (sortLe t)

/-- Distinct values of a list of rationals, first occurrences kept, with an
accumulator of values already seen. -/
def distinctAux : List ℚ → List ℚ → List ℚ
  | _, [] => []
  | seen, a :: t => if a ∈ seen then distinctAux seen t else a :: distinctAux (a :: seen) t

/-- The distinct values of a list of rationals. -/
def distinct (l : List ℚ) : List ℚ := distinctAux [] l

/-- The group keys of `groupby('EC')` over a merged frame: the distinct EC
values present, in ascending order (rows without a numeric EC are dropped by
pandas `groupby`). -/
def ecKeys (rs : List Row) : List ℚ :=
  sortLe (distinct (rs.filterMap ecOfRow))

/-- The rows of one `groupby('EC')` group. -/
def ecGroup (rs : List Row) (e : ℚ) : List Row :=
  rs.filter (fun r => ecOfRow r == some e)

/-- One row of the growth summary of lines 403–409: per EC level, the means of
fresh weight / leaf count / shoot length and the count of non-null individual
ids (`'개체번호': 'count'`). -/
structure GrowthSummaryRow where
  ec : ℚ
  avgFreshWeight : Option ℚ
  avgLeafCount : Option ℚ
  avgShootLength : Option ℚ
  sampleCount : ℕ
deriving DecidableEq, Repr

/-- The summary row of one EC level (the `agg` dictionary of lines 403–408). -/
def growthRowFor (rs : List Row) (e : ℚ) : GrowthSummaryRow :=
  let grp := ecGroup rs e
  { ec := e
    avgFreshWeight := meanCol grp "생중량(g)"
    avgLeafCount := meanCol grp "잎 수(장)"
    avgShootLength := meanCol grp "지상부 길이(mm)"
    sampleCount := (grp.filterMap (fun r => getCol r "개체번호")).length }

/-- `summarizeGrowth` — lines 403–409: `growth_combined.groupby('EC').agg(...)`.
One summary row per distinct EC level of the merged frame, keys ascending. -/
def summarizeGrowth (M : List (String × List Row)) : List GrowthSummaryRow :=
  (ecKeys (merge M)).map (growthRowFor (merge M))

/-- The series `growth_combined.groupby('EC')['생중량(g)'].mean()` of
lines 184–186: (EC level, mean fresh weight), keys ascending; levels whose
mean is NaN are absent for the purposes of `idxmax` (which skips NaN). -/
def biomassSeries (M : List (String × List Row)) : List (ℚ × ℚ) :=
  ((ecKeys (merge M)).filter
      (fun e => (meanCol (ecGroup (merge M) e) "생중량(g)").isSome)).map
    (fun e => (e, (meanCol (ecGroup (merge M) e) "생중량(g)").getD 0))

/-- `Series.idxmax` scan: keep the current entry unless a strictly greater
value appears, so the first maximal entry wins. -/
def idxmaxAux : ℚ × ℚ → List (ℚ × ℚ) → ℚ × ℚ
  | p, [] => p
  | p, q :: t => if p.2 < q.2 then idxmaxAux q t else idxmaxAux p t

/-- The (key, value) entry selected by `idxmax` on the biomass series. -/
def optimalPair (M : List (String × List Row)) : Option (ℚ × ℚ) :=
  match biomassSeries M with
  | [] => none
  | p :: t => some (idxmaxAux p t)

/-- `optimal_ec = avg_biomass.idxmax()` (line 187). -/
def optimal_ec (M : List (String × List Row)) : Option ℚ :=
  (optimalPair M).map Prod.fst

/-- Line 392: the winning EC level is mapped back to a school as the first
registry entry carrying that level
(`[s for s, info in SCHOOL_INFO.items() if info['ec'] == ec][0]`). -/
def pickOptimal (reg : List (String × ℚ)) (M : List (String × List Row)) :
    Option String :=
  (optimal_ec M).bind (fun e => (reg.find? (fun q => q.2 == e)).map Prod.fst)

/-- One row of the environment summary of lines 207–216. -/
structure EnvSummaryRow where
  school : String
  avgTemp : Option ℚ
  avgHumidity : Option ℚ
  avgPh : Option ℚ
  avgEc : Option ℚ
  targetEc : Option ℚ
deriving DecidableEq, Repr

/-- The summary row appended for one school at lines 209–216; `targetEc` is
the registry lookup `SCHOOL_INFO[school]['ec']`. -/
def envRowFor (reg : List (String × ℚ)) (p : String × List Row) : EnvSummaryRow :=
  { school := p.1
    avgTemp := meanCol p.2 "temperature"
    avgHumidity := meanCol p.2 "humidity"
    avgPh := meanCol p.2 "ph"
    avgEc := meanCol p.2 "ec"
    targetEc := List.lookup p.1 reg }

/-- `summarizeEnvironment` — the loop of lines 207–217: one summary row per
entry of the loaded mapping, in mapping order. -/
def summarizeEnvironment (reg : List (String × ℚ)) (M : List (String × List Row)) :
    List EnvSummaryRow :=
  M.map (envRowFor reg)

/-- The pipeline of `main()` (lines 130–136 onward): load both mappings; if
either is empty, abort (`st.error`; `return`) with no summaries; otherwise
aggregation proceeds on the full mappings. -/
def runPipeline (nfc nfd : String → String) (reg : List (String × ℚ))
    (edir : List EnvFile) (gdir : List GrowthFile) :
    Option (List EnvSummaryRow × List GrowthSummaryRow) :=
  let env := (load_environment_data nfc nfd reg edir).1
  let growth := load_growth_data nfc nfd reg gdir
  if env.isEmpty || growth.isEmpty then none
  else some (summarizeEnvironment reg env, summarizeGrowth growth)

end PolarPlant

namespace PolarPlant

/-! ## Helper lemmas: column access -/

theorem find?_filter_ne (r : Row) (c c' : String) (h : c' ≠ c) :
    (r.filter (fun p => p.1 != c)).find? (fun p => p.1 == c') =
      r.find? (fun p => p.1 == c') := by
  induction r with
  | nil => rfl
  | cons p t ih =>
    by_cases hq : (p.1 == c') = true
    · have hpc : (p.1 != c) = true := by
        have hp : p.1 = c' := eq_of_beq hq
        exact bne_iff_ne.mpr (by rw [hp]; exact h)
      simp [List.filter_cons, hpc, List.find?_cons, hq]
    · by_cases hb : (p.1 != c) = true
      · simp [List.filter_cons, hb, List.find?_cons, hq, ih]
      · simp [List.filter_cons, hb, List.find?_cons, hq, ih]

theorem getCol_setCol_self (r : Row) (c : String) (v : Value) :
    getCol (setCol r c v) c = some v := by
  rw [getCol, setCol, List.find?_append]
  have h1 : (r.filter (fun p => p.1 != c)).find? (fun p => p.1 == c) = none := by
    rw [List.find?_eq_none]
    intro x hx
    have hx2 := (List.mem_filter.mp hx).2
    simp only [bne_iff_ne, ne_eq] at hx2
    simp [hx2]
  rw [h1]
  simp [List.find?_cons]

theorem getCol_setCol_ne (r : Row) (c c' : String) (v : Value) (h : c' ≠ c) :
    getCol (setCol r c v) c' = getCol r c' := by
  rw [getCol, setCol, List.find?_append, find?_filter_ne r c c' h]
  cases hf : r.find? (fun p => p.1 == c') with
  | none =>
    have hcc : (c == c') = false := by
      rw [beq_eq_false_iff_ne]
      exact fun hc => h hc.symm
    simp [getCol, hf, List.find?_cons, hcc]
  | some p => simp [getCol, hf]

end PolarPlant

namespace PolarPlant

/-! ## Helper lemmas: distinct values, sorting, idxmax -/

theorem mem_distinctAux (l : List ℚ) (seen : List ℚ) (x : ℚ) :
    x ∈ distinctAux seen l ↔ x ∈ l ∧ x ∉ seen := by
  induction l generalizing seen with
  | nil => simp [distinctAux]
  | cons a t ih =>
    by_cases ha : a ∈ seen
    · rw [distinctAux, if_pos ha, ih]
      constructor
      · exact fun hx => ⟨List.mem_cons_of_mem a hx.1, hx.2⟩
      · rintro ⟨hx, hns⟩
        rcases List.mem_cons.mp hx with rfl | hxt
        · exact absurd ha hns
        · exact ⟨hxt, hns⟩
    · rw [distinctAux, if_neg ha]
      constructor
      · intro hx
        rcases List.mem_cons.mp hx with rfl | hxt
        · exact ⟨List.mem_cons_self x t, ha⟩
        · have := (ih (a :: seen)).mp hxt
          exact ⟨List.mem_cons_of_mem a this.1,
            fun hs => this.2 (List.mem_cons_of_mem a hs)⟩
      · rintro ⟨hx, hns⟩
        rcases List.mem_cons.mp hx with rfl | hxt
        · exact List.mem_cons_self x _
        · by_cases hxa : x = a
          · subst hxa; exact List.mem_cons_self x _
          · exact List.mem_cons_of_mem a ((ih (a :: seen)).mpr
              ⟨hxt, by simp [List.mem_cons, hxa, hns]⟩)

theorem nodup_distinctAux (l : List ℚ) (seen : List ℚ) :
    (distinctAux seen l).Nodup := by
  induction l generalizing seen with
  | nil => simp [distinctAux]
  | cons a t ih =>
    by_cases ha : a ∈ seen
    · rw [distinctAux, if_pos ha]; exact ih seen
    · rw [distinctAux, if_neg ha]
      refine List.nodup_cons.mpr ⟨?_, ih (a :: seen)⟩
      intro hmem
      exact ((mem_distinctAux t (a :: seen) a).mp hmem).2 (List.mem_cons_self a seen)

theorem mem_distinct (l : List ℚ) (x : ℚ) : x ∈ distinct l ↔ x ∈ l := by
  simp [distinct, mem_distinctAux]

theorem nodup_distinct (l : List ℚ) : (distinct l).Nodup := nodup_distinctAux l []

theorem mem_insertLe (a x : ℚ) (l : List ℚ) :
    x ∈ insertLe a l ↔ x = a ∨ x ∈ l := by
  induction l with
  | nil => simp [insertLe]
  | cons b t ih =>
    rw [insertLe]
    by_cases h : a ≤ b
    · simp [h, List.mem_cons]
    · simp [h, List.mem_cons, ih]
      tauto

theorem length_insertLe (a : ℚ) (l : List ℚ) :
    (insertLe a l).length = l.length + 1 := by
  induction l with
  | nil => rfl
  | cons b t ih =>
    rw [insertLe]
    by_cases h : a ≤ b
    · simp [h]
    · simp [h, ih]

theorem pairwise_insertLe (a : ℚ) (l : List ℚ) (h : l.Pairwise (· ≤ ·)) :
    (insertLe a l).Pairwise (· ≤ ·) := by
  induction l with
  | nil => simp [insertLe]
  | cons b t ih =>
    rw [insertLe]
    by_cases hab : a ≤ b
    · rw [if_pos hab]
      refine List.pairwise_cons.mpr ⟨?_, h⟩
      intro x hx
      rcases List.mem_cons.mp hx with hxb | hxt
      · rw [hxb]; exact hab
      · exact le_trans hab ((List.pairwise_cons.mp h).1 x hxt)
    · rw [if_neg hab]
      have hb := List.pairwise_cons.mp h
      refine List.pairwise_cons.mpr ⟨?_, ih hb.2⟩
      intro x hx
      rcases (mem_insertLe a x t).mp hx with hxa | hxt
      · rw [hxa]; exact le_of_not_le hab
      · exact hb.1 x hxt

theorem mem_sortLe (x : ℚ) (l : List ℚ) : x ∈ sortLe l ↔ x ∈ l := by
  induction l with
  | nil => simp [sortLe]
  | cons a t ih => rw [sortLe, mem_insertLe, ih, List.mem_cons]

theorem length_sortLe (l : List ℚ) : (sortLe l).length = l.length := by
  induction l with
  | nil => rfl
  | cons a t ih => rw [sortLe, length_insertLe, ih, List.length_cons]

theorem pairwise_sortLe (l : List ℚ) : (sortLe l).Pairwise (· ≤ ·) := by
  induction l with
  | nil => simp [sortLe]
  | cons a t ih => exact pairwise_insertLe a (sortLe t) ih

theorem idxmaxAux_mem (p : ℚ × ℚ) (t : List (ℚ × ℚ)) :
    idxmaxAux p t ∈ p :: t := by
  induction t generalizing p with
  | nil => simp [idxmaxAux]
  | cons q t ih =>
    rw [idxmaxAux]
    by_cases h : p.2 < q.2
    · rw [if_pos h]
      exact List.mem_cons_of_mem p (ih q)
    · rw [if_neg h]
      rcases List.mem_cons.mp (ih p) with hp | ht
      · rw [hp]; exact List.mem_cons_self p _
      · exact List.mem_cons_of_mem p (List.mem_cons_of_mem q ht)

theorem idxmaxAux_le (p : ℚ × ℚ) (t : List (ℚ × ℚ)) :
    ∀ x ∈ p :: t, x.2 ≤ (idxmaxAux p t).2 := by
  induction t generalizing p with
  | nil =>
    intro x hx
    rcases List.mem_cons.mp hx with hxp | h
    · rw [hxp]; simp [idxmaxAux]
    · simp at h
  | cons q t ih =>
    intro x hx
    rw [idxmaxAux]
    by_cases h : p.2 < q.2
    · rw [if_pos h]
      rcases List.mem_cons.mp hx with hxp | hx'
      · rw [hxp]
        exact le_trans (le_of_lt h) (ih q q (List.mem_cons_self q t))
      · exact ih q x hx'
    · rw [if_neg h]
      rcases List.mem_cons.mp hx with hxp | hx'
      · rw [hxp]
        exact ih p p (List.mem_cons_self p t)
      · rcases List.mem_cons.mp hx' with hxq | hx''
        · rw [hxq]
          exact le_trans (le_of_not_lt h) (ih p p (List.mem_cons_self p t))
        · exact ih p x (List.mem_cons_of_mem p hx'')

theorem idxmaxAux_eq_or_lt (p : ℚ × ℚ) (t : List (ℚ × ℚ)) :
    idxmaxAux p t = p ∨ p.2 < (idxmaxAux p t).2 := by
  induction t generalizing p with
  | nil => exact Or.inl rfl
  | cons q t ih =>
    rw [idxmaxAux]
    by_cases h : p.2 < q.2
    · rw [if_pos h]
      rcases ih q with he | hlt
      · rw [he]; exact Or.inr h
      · exact Or.inr (lt_trans h hlt)
    · rw [if_neg h]
      exact ih p

theorem idxmaxAux_first_max (p : ℚ × ℚ) (t : List (ℚ × ℚ))
    (hsort : (p :: t).Pairwise (fun a b => a.1 ≤ b.1)) :
    ∀ x ∈ p :: t, x.2 = (idxmaxAux p t).2 → (idxmaxAux p t).1 ≤ x.1 := by
  induction t generalizing p with
  | nil =>
    intro x hx _
    rcases List.mem_cons.mp hx with hxp | h
    · rw [hxp]; simp [idxmaxAux]
    · simp at h
  | cons q t ih =>
    intro x hx hval
    rw [idxmaxAux] at hval ⊢
    have hps := List.pairwise_cons.mp hsort
    by_cases h : p.2 < q.2
    · rw [if_pos h] at hval ⊢
      rcases List.mem_cons.mp hx with hxp | hx'
      · exfalso
        have hq2 : q.2 ≤ (idxmaxAux q t).2 := idxmaxAux_le q t q (List.mem_cons_self q t)
        rw [hxp] at hval
        rw [hval] at h
        exact absurd (lt_of_lt_of_le h hq2) (lt_irrefl _)
      · exact ih q hps.2 x hx' hval
    · rw [if_neg h] at hval ⊢
      rcases List.mem_cons.mp hx with hxp | hx'
      · rw [hxp] at hval ⊢
        rcases idxmaxAux_eq_or_lt p t with he | hlt
        · rw [he]
        · exfalso
          rw [← hval] at hlt
          exact lt_irrefl _ hlt
      · rcases List.mem_cons.mp hx' with hxq | hx''
        · rw [hxq] at hval ⊢
          rcases idxmaxAux_eq_or_lt p t with he | hlt
          · rw [he]
            exact hps.1 q (List.mem_cons_self q t)
          · exfalso
            rw [← hval] at hlt
            exact h hlt
        · have hsort' : (p :: t).Pairwise (fun a b => a.1 ≤ b.1) := by
            refine List.pairwise_cons.mpr ⟨?_, (List.pairwise_cons.mp hps.2).2⟩
            intro y hy
            exact hps.1 y (List.mem_cons_of_mem q hy)
          exact ih p hsort' x (List.mem_cons_of_mem p hx'') hval

end PolarPlant

namespace PolarPlant

/-! ## C4: merge row-count law -/

theorem merge_mem_block (M : List (String × List Row)) (p : String × List Row)
    (hp : p ∈ M) : ∃ l1 l2, merge M = l1 ++ p.2 ++ l2 := by
  induction M with
  | nil => cases hp
  | cons q t ih =>
    rcases List.mem_cons.mp hp with hpq | hpt
    · refine ⟨[], (t.map Prod.snd).flatten, ?_⟩
      rw [hpq]
      simp [merge]
    · rcases ih hpt with ⟨l1, l2, hl⟩
      refine ⟨q.2 ++ l1, l2, ?_⟩
      have : merge (q :: t) = q.2 ++ merge t := by simp [merge]
      rw [this, hl]
      simp [List.append_assoc]

/-- C4: `merge` concatenates the per-group frames: the merged table has
exactly the sum of the per-group row counts, each group's block appears
contiguously (relative order and content of its rows preserved, no
deduplication), and every row of every group appears in the merge. -/
theorem merge_row_count_law (M : List (String × List Row)) (p : String × List Row)
    (r : Row) (hp : p ∈ M) (hr : r ∈ p.2) :
    (merge M).length = (M.map (fun q => q.2.length)).sum ∧
    (∃ l1 l2, merge M = l1 ++ p.2 ++ l2) ∧ r ∈ merge M := by
  refine ⟨?_, merge_mem_block M p hp, ?_⟩
  · rw [merge, List.length_flatten, List.map_map]
    rfl
  · rcases merge_mem_block M p hp with ⟨l1, l2, hl⟩
    rw [hl]
    simp [List.mem_append, hr]

/-- Witness for C4 at a concrete two-group mapping. -/
theorem merge_row_count_law_witness :
    (merge [("A", [[("x", Value.num 1)]]),
            ("B", [[("x", Value.num 2)], [("x", Value.num 3)]])]).length =
      ([("A", [[("x", Value.num 1)]]),
        ("B", [[("x", Value.num 2)], [("x", Value.num 3)]])].map
          (fun q => q.2.length)).sum ∧
    (∃ l1 l2, merge [("A", [[("x", Value.num 1)]]),
            ("B", [[("x", Value.num 2)], [("x", Value.num 3)]])] =
        l1 ++ [[("x", Value.num 2)], [("x", Value.num 3)]] ++ l2) ∧
    [("x", Value.num 2)] ∈ merge [("A", [[("x", Value.num 1)]]),
            ("B", [[("x", Value.num 2)], [("x", Value.num 3)]])] :=
  merge_row_count_law
    [("A", [[("x", Value.num 1)]]), ("B", [[("x", Value.num 2)], [("x", Value.num 3)]])]
    ("B", [[("x", Value.num 2)], [("x", Value.num 3)]])
    [("x", Value.num 2)] (by decide) (by decide)

/-! ## C5: the pipeline is fatal exactly when a loaded mapping is empty -/

/-- C5: `main` aborts (producing no summaries) exactly when the loaded
environment mapping or the loaded growth mapping is empty after all
per-group skips; otherwise aggregation proceeds on the full mappings. -/
theorem pipeline_fatal_iff_empty (nfc nfd : String → String) (reg : List (String × ℚ))
    (edir : List EnvFile) (gdir : List GrowthFile) :
    (runPipeline nfc nfd reg edir gdir = none ↔
      (load_environment_data nfc nfd reg edir).1 = [] ∨
        load_growth_data nfc nfd reg gdir = []) ∧
    ((load_environment_data nfc nfd reg edir).1 ≠ [] →
      load_growth_data nfc nfd reg gdir ≠ [] →
      runPipeline nfc nfd reg edir gdir =
        some (summarizeEnvironment reg (load_environment_data nfc nfd reg edir).1,
              summarizeGrowth (load_growth_data nfc nfd reg gdir))) := by
  by_cases h1 : (load_environment_data nfc nfd reg edir).1 = [] <;>
    by_cases h2 : load_growth_data nfc nfd reg gdir = [] <;>
      simp [runPipeline, h1, h2, List.isEmpty_iff]

/-- Witness for C5: a one-file run proceeds to aggregation; an empty
directory run aborts with no summaries. -/
theorem pipeline_fatal_iff_empty_witness :
    runPipeline id id SCHOOL_INFO
        [⟨"송도고_환경데이터.csv", Except.ok []⟩]
        [⟨"4개교_생육결과데이터.xlsx", Except.ok [("송도고", [])]⟩] =
      some (summarizeEnvironment SCHOOL_INFO
              (load_environment_data id id SCHOOL_INFO
                [⟨"송도고_환경데이터.csv", Except.ok []⟩]).1,
            summarizeGrowth (load_growth_data id id SCHOOL_INFO
              [⟨"4개교_생육결과데이터.xlsx", Except.ok [("송도고", [])]⟩])) ∧
    runPipeline id id SCHOOL_INFO [] [] = none :=
  ⟨(pipeline_fatal_iff_empty id id SCHOOL_INFO
      [⟨"송도고_환경데이터.csv", Except.ok []⟩]
      [⟨"4개교_생육결과데이터.xlsx", Except.ok [("송도고", [])]⟩]).2
      (by decide) (by decide),
   (pipeline_fatal_iff_empty id id SCHOOL_INFO [] []).1.mpr (Or.inl (by decide))⟩

end PolarPlant

namespace PolarPlant

/-! ## C2: identifier resolution is normalization-invariant -/

/-- C2: assuming only the canonical-normalization identities of Unicode NFC /
NFD (each is idempotent, and normalizing the other form's output gives the
same result as normalizing the original), resolving the NFC rendering of a
name and resolving the NFD rendering of the same name against any directory
listing yield the same result; moreover a candidate matches whenever ANY
normalized rendering of it equals ANY normalized rendering of the target,
i.e. the dual test of line 59 matches on the union of normalized
representations, not on raw string equality. -/
theorem resolve_normalization_invariant (nfc nfd : String → String)
    (hcc : ∀ x, nfc (nfc x) = nfc x) (hcd : ∀ x, nfc (nfd x) = nfc x)
    (hdc : ∀ x, nfd (nfc x) = nfd x) (hdd : ∀ x, nfd (nfd x) = nfd x)
    (dir : List String) (name f t : String)
    (hm : nfc f = nfc t ∨ nfc f = nfd t ∨ nfd f = nfc t ∨ nfd f = nfd t) :
    resolveEnv nfc nfd dir (nfc name) = resolveEnv nfc nfd dir (nfd name) ∧
    matchesTarget nfc nfd f t = true := by
  constructor
  · rw [resolveEnv, resolveEnv]
    have hpred : envNameTest nfc nfd (nfc name) = envNameTest nfc nfd (nfd name) := by
      funext n
      rw [envNameTest, envNameTest, matchesTarget, matchesTarget,
        hcc, hcd, hdc, hdd]
    rw [hpred]
  · rw [matchesTarget, Bool.or_eq_true, beq_iff_eq, beq_iff_eq]
    rcases hm with h | h | h | h
    · exact Or.inl h
    · refine Or.inr ?_
      have := congrArg nfd h
      rw [hdc, hdd] at this
      exact this
    · refine Or.inl ?_
      have := congrArg nfc h
      rw [hcd, hcc] at this
      exact this
    · exact Or.inr h

/-- Witness for C2: the identity normalization (correct for pure-ASCII text)
satisfies the four canonical identities, and the theorem applies to it. -/
theorem resolve_normalization_invariant_witness :
    resolveEnv id id ["a.csv"] (id "a.csv") = resolveEnv id id ["a.csv"] (id "a.csv") ∧
    matchesTarget id id "b.csv" "b.csv" = true :=
  resolve_normalization_invariant id id
    (fun _ => rfl) (fun _ => rfl) (fun _ => rfl) (fun _ => rfl)
    ["a.csv"] "a.csv" "b.csv" "b.csv" (Or.inl rfl)

end PolarPlant

namespace PolarPlant

/-! ## C9: environment summary and zero-row groups -/

/-- C9 counterexample: a loaded group with zero rows is NOT excluded from the
environment summary — the loop of lines 207–217 appends a row for every
entry of the mapping, so an empty group yields a row whose four means are all
NaN (`none`), contradicting the claim that zero-row groups produce no row. -/
theorem summarizeEnvironment_zero_row_counterexample :
    summarizeEnvironment SCHOOL_INFO [("송도고", [])] =
      [⟨"송도고", none, none, none, none, some 1⟩] := by decide

/-- C9 amended: `summarizeEnvironment` emits exactly one summary row per
group present in the loaded mapping, in mapping order — including zero-row
groups, whose mean fields are all NaN (`none`); it does not exclude them. -/
theorem summarizeEnvironment_row_per_loaded_group (reg : List (String × ℚ))
    (M : List (String × List Row)) (p : String × List Row) (hp : p ∈ M) :
    (summarizeEnvironment reg M).length = M.length ∧
    envRowFor reg p ∈ summarizeEnvironment reg M ∧
    (p.2 = [] → envRowFor reg p =
      ⟨p.1, none, none, none, none, List.lookup p.1 reg⟩) := by
  refine ⟨List.length_map M (envRowFor reg), List.mem_map_of_mem (envRowFor reg) hp, ?_⟩
  intro h
  simp [envRowFor, h, meanCol, List.filterMap]

/-- Witness for C9 at a mapping holding one empty and one non-empty group. -/
theorem summarizeEnvironment_row_per_loaded_group_witness :
    (summarizeEnvironment SCHOOL_INFO
        [("송도고", []), ("하늘고", [[("temperature", Value.num 20)]])]).length = 2 ∧
    envRowFor SCHOOL_INFO ("송도고", []) ∈ summarizeEnvironment SCHOOL_INFO
        [("송도고", []), ("하늘고", [[("temperature", Value.num 20)]])] ∧
    envRowFor SCHOOL_INFO ("송도고", []) =
      ⟨"송도고", none, none, none, none, List.lookup "송도고" SCHOOL_INFO⟩ :=
  ⟨(summarizeEnvironment_row_per_loaded_group SCHOOL_INFO
      [("송도고", []), ("하늘고", [[("temperature", Value.num 20)]])]
      ("송도고", []) (by decide)).1,
   (summarizeEnvironment_row_per_loaded_group SCHOOL_INFO
      [("송도고", []), ("하늘고", [[("temperature", Value.num 20)]])]
      ("송도고", []) (by decide)).2.1,
   (summarizeEnvironment_row_per_loaded_group SCHOOL_INFO
      [("송도고", []), ("하늘고", [[("temperature", Value.num 20)]])]
      ("송도고", []) (by decide)).2.2 rfl⟩

end PolarPlant

namespace PolarPlant

/-! ## C1: growth summary rows are keyed by treatment level, not by group -/

/-- C1 counterexample: a mapping with TWO groups, each with records, whose
rows carry the same treatment level (`EC`): `groupby('EC')` (lines 403–409)
produces a single summary row, so the groups are silently collapsed and no
per-group row (from which the groupId could be recovered) exists. -/
theorem summarizeGrowth_collapse_counterexample :
    (summarizeGrowth
        [("A", [[("EC", Value.num 1), ("생중량(g)", Value.num 1)]]),
         ("B", [[("EC", Value.num 1), ("생중량(g)", Value.num 2)]])]).length = 1 := by
  decide

theorem mem_merge_iff (M : List (String × List Row)) (r : Row) :
    r ∈ merge M ↔ ∃ q ∈ M, r ∈ q.2 := by
  rw [merge]
  constructor
  · intro h
    rcases List.mem_flatten.mp h with ⟨l, hl, hr⟩
    rcases List.mem_map.mp hl with ⟨q, hq, hql⟩
    exact ⟨q, hq, hql ▸ hr⟩
  · rintro ⟨q, hq, hr⟩
    exact List.mem_flatten.mpr ⟨q.2, List.mem_map_of_mem Prod.snd hq, hr⟩

theorem mergedEC_mem (M : List (String × List Row)) (ecAssign : String → ℚ)
    (htag : ∀ q ∈ M, ∀ r ∈ q.2, ecOfRow r = some (ecAssign q.1))
    (hne : ∀ q ∈ M, q.2 ≠ []) (e : ℚ) :
    e ∈ (merge M).filterMap ecOfRow ↔ ∃ q ∈ M, e = ecAssign q.1 := by
  rw [List.mem_filterMap]
  constructor
  · rintro ⟨r, hr, he⟩
    rcases (mem_merge_iff M r).mp hr with ⟨q, hq, hqr⟩
    refine ⟨q, hq, ?_⟩
    have := htag q hq r hqr
    rw [this] at he
    exact (Option.some_injective ℚ he).symm
  · rintro ⟨q, hq, he⟩
    rcases List.exists_mem_of_ne_nil q.2 (hne q hq) with ⟨r, hr⟩
    exact ⟨r, (mem_merge_iff M r).mpr ⟨q, hq, hr⟩, by rw [htag q hq r hr, he]⟩

/-- C1 amended: `summarizeGrowth` reports one summary row per DISTINCT
treatment level of the merged rows: groups sharing a level are collapsed.
When every group's rows carry its own level and those levels are pairwise
distinct — which holds for the hardcoded registry, whose four levels differ —
the summary has exactly one row per group with records, and each group's row
is recovered as the unique row carrying that group's level. -/
theorem summarizeGrowth_row_per_level (M : List (String × List Row))
    (ecAssign : String → ℚ) (p : String × List Row)
    (htag : ∀ q ∈ M, ∀ r ∈ q.2, ecOfRow r = some (ecAssign q.1))
    (hne : ∀ q ∈ M, q.2 ≠ [])
    (hinj : (M.map (fun q => ecAssign q.1)).Nodup)
    (hp : p ∈ M) :
    (summarizeGrowth M).length = M.length ∧
    ∃ row ∈ summarizeGrowth M, row.ec = ecAssign p.1 := by
  have hsetEq : ((merge M).filterMap ecOfRow).toFinset =
      (M.map (fun q => ecAssign q.1)).toFinset := by
    apply Finset.ext
    intro e
    rw [List.mem_toFinset, List.mem_toFinset,
      mergedEC_mem M ecAssign htag hne e, List.mem_map]
    constructor
    · rintro ⟨q, hq, he⟩; exact ⟨q, hq, he.symm⟩
    · rintro ⟨q, hq, he⟩; exact ⟨q, hq, he.symm⟩
  constructor
  · rw [summarizeGrowth, List.length_map, ecKeys, length_sortLe]
    have h1 : (distinct ((merge M).filterMap ecOfRow)).toFinset.card =
        (distinct ((merge M).filterMap ecOfRow)).length :=
      List.toFinset_card_of_nodup (nodup_distinct _)
    have h2 : (distinct ((merge M).filterMap ecOfRow)).toFinset =
        ((merge M).filterMap ecOfRow).toFinset := by
      apply Finset.ext
      intro e
      rw [List.mem_toFinset, List.mem_toFinset, mem_distinct]
    have h3 : (M.map (fun q => ecAssign q.1)).toFinset.card =
        (M.map (fun q => ecAssign q.1)).length :=
      List.toFinset_card_of_nodup hinj
    rw [← h1, h2, hsetEq, h3, List.length_map]
  · refine ⟨growthRowFor (merge M) (ecAssign p.1), ?_, rfl⟩
    rw [summarizeGrowth]
    apply List.mem_map_of_mem
    rw [ecKeys, mem_sortLe, mem_distinct,
      mergedEC_mem M ecAssign htag hne]
    exact ⟨p, hp, rfl⟩

/-- Witness for C1 at a two-group mapping with distinct levels. -/
theorem summarizeGrowth_row_per_level_witness :
    (summarizeGrowth [("A", [[("EC", Value.num 1)]]),
                      ("B", [[("EC", Value.num 2)]])]).length = 2 ∧
    ∃ row ∈ summarizeGrowth [("A", [[("EC", Value.num 1)]]),
                             ("B", [[("EC", Value.num 2)]])],
      row.ec = (fun s => if s = "A" then (1 : ℚ) else 2) "A" :=
  summarizeGrowth_row_per_level
    [("A", [[("EC", Value.num 1)]]), ("B", [[("EC", Value.num 2)]])]
    (fun s => if s = "A" then (1 : ℚ) else 2)
    ("A", [[("EC", Value.num 1)]])
    (by decide) (by decide) (by decide) (by decide)

end PolarPlant

namespace PolarPlant

/-! ## C3: pickOptimal tie-break -/

/-- C3 counterexample: groups `A, B, C` in registry iteration order `A, B, C`
with levels `5, 3, 2` and mean fresh weights `1, 3, 3` (B and C tie on the
maximum).  The claim requires the first-in-registry tied group `B`; the code
(`groupby('EC').mean().idxmax()`, lines 184–187 and 392) orders the series by
ascending level and returns the tied group with the SMALLEST level, `C`. -/
theorem pickOptimal_registry_tie_counterexample :
    pickOptimal [("A", 5), ("B", 3), ("C", 2)]
        [("A", [[("EC", Value.num 5), ("생중량(g)", Value.num 1)]]),
         ("B", [[("EC", Value.num 3), ("생중량(g)", Value.num 3)]]),
         ("C", [[("EC", Value.num 2), ("생중량(g)", Value.num 3)]])] = some "C" ∧
    pickOptimal [("A", 5), ("B", 3), ("C", 2)]
        [("A", [[("EC", Value.num 5), ("생중량(g)", Value.num 1)]]),
         ("B", [[("EC", Value.num 3), ("생중량(g)", Value.num 3)]]),
         ("C", [[("EC", Value.num 2), ("생중량(g)", Value.num 3)]])] ≠ some "B" := by
  constructor
  · decide
  · decide

theorem biomassSeries_key_sorted (M : List (String × List Row)) :
    (biomassSeries M).Pairwise (fun a b => a.1 ≤ b.1) := by
  rw [biomassSeries]
  apply List.pairwise_map.mpr
  exact (pairwise_sortLe _).filter _

/-- C3 amended: the entry selected by `idxmax` over the per-level mean
fresh-weight series attains the maximal mean, and among entries tying
exactly on that maximum it carries the SMALLEST treatment level (the series
is in ascending level order and `idxmax` keeps the first maximum); the
returned group is the first registry entry carrying that level.  When the
registry lists its groups in ascending level order — as the hardcoded
registry does — this tie-break coincides with registry iteration order, and
the spec's example `[(A,1.0),(B,3.0),(C,3.0)]` indeed yields `B`. -/
theorem pickOptimal_max_min_level (reg : List (String × ℚ))
    (M : List (String × List Row)) (q p : ℚ × ℚ)
    (hq : optimalPair M = some q) (hp : p ∈ biomassSeries M) :
    q ∈ biomassSeries M ∧ p.2 ≤ q.2 ∧ (p.2 = q.2 → q.1 ≤ p.1) ∧
    optimal_ec M = some q.1 ∧
    pickOptimal reg M = (reg.find? (fun b => b.2 == q.1)).map Prod.fst := by
  cases hbs : biomassSeries M with
  | nil =>
    rw [optimalPair, hbs] at hq
    cases hq
  | cons p0 t =>
    rw [optimalPair, hbs] at hq
    have hqe : q = idxmaxAux p0 t := (Option.some_injective _ hq).symm
    have hsort : (p0 :: t).Pairwise (fun a b => a.1 ≤ b.1) := by
      rw [← hbs]; exact biomassSeries_key_sorted M
    have hpmem : p ∈ p0 :: t := hbs ▸ hp
    refine ⟨?_, ?_, ?_, ?_, ?_⟩
    · rw [hqe]; exact idxmaxAux_mem p0 t
    · rw [hqe]; exact idxmaxAux_le p0 t p hpmem
    · intro hv
      rw [hqe]
      exact idxmaxAux_first_max p0 t hsort p hpmem (by rw [hv, hqe])
    · rw [optimal_ec, optimalPair, hbs, hqe]
      rfl
    · rw [pickOptimal, optimal_ec, optimalPair, hbs, hqe]
      rfl

/-- Witness for C3: the spec's example over a registry in ascending level
order; the selected entry is level 2 with mean 3, and the group is `B`. -/
theorem pickOptimal_max_min_level_witness :
    (2, 3) ∈ biomassSeries
        [("A", [[("EC", Value.num 1), ("생중량(g)", Value.num 1)]]),
         ("B", [[("EC", Value.num 2), ("생중량(g)", Value.num 3)]]),
         ("C", [[("EC", Value.num 4), ("생중량(g)", Value.num 3)]])] ∧
    ((4 : ℚ), (3 : ℚ)).2 ≤ ((2 : ℚ), (3 : ℚ)).2 ∧
    (((4 : ℚ), (3 : ℚ)).2 = ((2 : ℚ), (3 : ℚ)).2 →
      ((2 : ℚ), (3 : ℚ)).1 ≤ ((4 : ℚ), (3 : ℚ)).1) ∧
    optimal_ec
        [("A", [[("EC", Value.num 1), ("생중량(g)", Value.num 1)]]),
         ("B", [[("EC", Value.num 2), ("생중량(g)", Value.num 3)]]),
         ("C", [[("EC", Value.num 4), ("생중량(g)", Value.num 3)]])] = some (2, 3).1 ∧
    pickOptimal [("A", 1), ("B", 2), ("C", 4)]
        [("A", [[("EC", Value.num 1), ("생중량(g)", Value.num 1)]]),
         ("B", [[("EC", Value.num 2), ("생중량(g)", Value.num 3)]]),
         ("C", [[("EC", Value.num 4), ("생중량(g)", Value.num 3)]])] =
      ([("A", (1 : ℚ)), ("B", 2), ("C", 4)].find? (fun b => b.2 == (2, 3).1)).map
        Prod.fst :=
  pickOptimal_max_min_level [("A", 1), ("B", 2), ("C", 4)]
    [("A", [[("EC", Value.num 1), ("생중량(g)", Value.num 1)]]),
     ("B", [[("EC", Value.num 2), ("생중량(g)", Value.num 3)]]),
     ("C", [[("EC", Value.num 4), ("생중량(g)", Value.num 3)]])]
    (2, 3) (4, 3) (by decide) (by decide)

end PolarPlant

namespace PolarPlant

/-! ## C7: schema validation at load time -/

/-- C7 counterexample: a resolved environment table lacking the required
`temperature` column is NOT rejected — `pd.read_csv` (line 61) performs no
schema validation, so the group is loaded (not omitted) with the
column still absent from its rows; the claimed per-group ParseError does not
occur at load time. -/
theorem load_env_no_column_validation_counterexample :
    (load_environment_data id id SCHOOL_INFO
        [⟨"송도고_환경데이터.csv", Except.ok [[("humidity", Value.num 55)]]⟩]).1 =
      [("송도고", [[("humidity", Value.num 55), ("학교", Value.str "송도고")]])] ∧
    getCol [[("humidity", Value.num 55), ("학교", Value.str "송도고")]].head!
        "temperature" = none := by
  constructor
  · decide
  · decide

theorem loadSchoolEnv_error_cons (nfc nfd : String → String) (s : String)
    (f : EnvFile) (msg : String) (dir : List EnvFile)
    (hf : f.content = Except.error msg) :
    loadSchoolEnv nfc nfd s (f :: dir) = loadSchoolEnv nfc nfd s dir := by
  rw [loadSchoolEnv]
  by_cases h : envFileTest nfc nfd s f = true
  · rw [if_pos h, hf]
  · rw [if_neg h]

/-- C7 amended: the loader performs no column validation (a resolved table
is loaded whatever its columns, see the counterexample); the per-group
recoverable failure the code does implement is a failed READ: a file whose
read raises is transparent to the entire load — every group, and the
warning list, comes out exactly as if that file were absent, so only the
affected group can lose data and all other groups still load. -/
theorem load_env_read_error_transparent (nfc nfd : String → String)
    (reg : List (String × ℚ)) (dir : List EnvFile) (f : EnvFile) (msg : String)
    (hf : f.content = Except.error msg) :
    load_environment_data nfc nfd reg (f :: dir) =
      load_environment_data nfc nfd reg dir := by
  induction reg with
  | nil => rfl
  | cons t rest ih =>
    rw [load_environment_data, load_environment_data,
      loadSchoolEnv_error_cons nfc nfd t.1 f msg dir hf, ih]

/-- Witness for C7: a matching file whose read raises is skipped and the
next matching file still loads the group. -/
theorem load_env_read_error_transparent_witness :
    load_environment_data id id SCHOOL_INFO
        (⟨"송도고_환경데이터.csv", Except.error "tokenizing error"⟩ ::
          [⟨"송도고_환경데이터.csv", Except.ok [[("temperature", Value.num 20)]]⟩]) =
      load_environment_data id id SCHOOL_INFO
        [⟨"송도고_환경데이터.csv", Except.ok [[("temperature", Value.num 20)]]⟩] :=
  load_env_read_error_transparent id id SCHOOL_INFO
    [⟨"송도고_환경데이터.csv", Except.ok [[("temperature", Value.num 20)]]⟩]
    ⟨"송도고_환경데이터.csv", Except.error "tokenizing error"⟩ "tokenizing error" rfl

end PolarPlant

namespace PolarPlant

/-! ## C8: which rows carry the registry treatment level -/

/-- C8 counterexample: the environment loader tags rows ONLY with the school
(`df['학교'] = school_name`, line 62) — no `targetLevel` is copied from the
registry onto environment rows (their measured-level column `ec` comes from
the source file), so a loaded environment row has no `EC` field at all,
contradicting the claim that every environment row carries the registry's
targetLevel. -/
theorem env_rows_not_level_stamped_counterexample :
    (load_environment_data id id SCHOOL_INFO
        [⟨"송도고_환경데이터.csv",
          Except.ok [[("time", Value.str "t"), ("temperature", Value.num 20)]]⟩]).1 =
      [("송도고", [[("time", Value.str "t"), ("temperature", Value.num 20),
                    ("학교", Value.str "송도고")]])] ∧
    getCol [("time", Value.str "t"), ("temperature", Value.num 20),
            ("학교", Value.str "송도고")] "EC" = none := by
  constructor
  · decide
  · decide

theorem tagGrowthRows_getCol (s : String) (ec : ℚ) (rows0 : List Row) (r : Row)
    (hr : r ∈ tagGrowthRows s ec rows0) :
    getCol r "EC" = some (Value.num ec) ∧ getCol r "학교" = some (Value.str s) := by
  rcases List.mem_map.mp hr with ⟨r0, _, hr0⟩
  rw [← hr0]
  constructor
  · exact getCol_setCol_self _ "EC" _
  · rw [getCol_setCol_ne _ "EC" "학교" _ (by decide)]
    exact getCol_setCol_self _ "학교" _

theorem upsert_mem (l : List (String × List Row)) (k : String) (v : List Row)
    (p : String × List Row) (hp : p ∈ upsert l k v) : p ∈ l ∨ p = (k, v) := by
  rw [upsert] at hp
  by_cases h : l.any (fun x => x.1 == k) = true
  · rw [if_pos h] at hp
    rcases List.mem_map.mp hp with ⟨x, hx, hxe⟩
    by_cases hk : (x.1 == k) = true
    · rw [if_pos hk] at hxe
      exact Or.inr hxe.symm
    · rw [if_neg hk] at hxe
      exact Or.inl (hxe ▸ hx)
  · rw [if_neg h] at hp
    rcases List.mem_append.mp hp with hl | hr
    · exact Or.inl hl
    · exact Or.inr (List.mem_singleton.mp hr)

/-- The invariant carried by the sheet loop of the growth loader. -/
def GrowthEntryInv (reg : List (String × ℚ)) (p : String × List Row) : Prop :=
  ∃ ec rows0, (p.1, ec) ∈ reg ∧ p.2 = tagGrowthRows p.1 ec rows0

theorem growth_sheets_spec (nfc nfd : String → String) (reg : List (String × ℚ))
    (sheets : List (String × List Row)) (acc : List (String × List Row))
    (hacc : ∀ x ∈ acc, GrowthEntryInv reg x) :
    ∀ x ∈ load_growth_sheets nfc nfd reg acc sheets, GrowthEntryInv reg x := by
  induction sheets generalizing acc with
  | nil => exact hacc
  | cons sh rest ih =>
    rw [load_growth_sheets]
    cases hf : reg.find? (fun q => matchesTarget nfc nfd sh.1 q.1) with
    | none => exact ih acc hacc
    | some q =>
      apply ih
      intro x hx
      rcases upsert_mem acc q.1 (tagGrowthRows q.1 q.2 sh.2) x hx with hxa | hxe
      · exact hacc x hxa
      · refine ⟨q.2, sh.2, ?_, by rw [hxe]⟩
        rw [hxe]
        exact List.mem_of_find?_eq_some hf

theorem growth_entry_inv (nfc nfd : String → String) (reg : List (String × ℚ))
    (gdir : List GrowthFile) (p : String × List Row)
    (hp : p ∈ load_growth_data nfc nfd reg gdir) : GrowthEntryInv reg p := by
  rw [load_growth_data] at hp
  cases hf : gdir.find? (fun f => matchesTarget nfc nfd f.name "4개교_생육결과데이터.xlsx") with
  | none =>
    simp only [hf] at hp
    exact absurd hp (List.not_mem_nil p)
  | some f =>
    simp only [hf] at hp
    cases hc : f.content with
    | error msg =>
      simp only [hc] at hp
      exact absurd hp (List.not_mem_nil p)
    | ok sheets =>
      simp only [hc] at hp
      exact growth_sheets_spec nfc nfd reg sheets [] (by intro x hx; cases hx) p hp

/-- C8 amended: every GROWTH row produced by the growth loader carries both
the school tag and the `EC` treatment level copied from the registry entry of
its group (lines 114–117); environment rows carry only the school tag — the
environment loader copies no target level onto them (see counterexample). -/
theorem growth_rows_level_stamped (nfc nfd : String → String)
    (reg : List (String × ℚ)) (gdir : List GrowthFile)
    (p : String × List Row) (r : Row)
    (hp : p ∈ load_growth_data nfc nfd reg gdir) (hr : r ∈ p.2) :
    ∃ ec, (p.1, ec) ∈ reg ∧ getCol r "EC" = some (Value.num ec) ∧
      getCol r "학교" = some (Value.str p.1) := by
  rcases growth_entry_inv nfc nfd reg gdir p hp with ⟨ec, rows0, hmem, heq⟩
  rw [heq] at hr
  rcases tagGrowthRows_getCol p.1 ec rows0 r hr with ⟨h1, h2⟩
  exact ⟨ec, hmem, h1, h2⟩

/-- Witness for C8 at a concrete one-sheet workbook. -/
theorem growth_rows_level_stamped_witness :
    ∃ ec, (("송도고", ec) ∈ SCHOOL_INFO) ∧
      getCol [("생중량(g)", Value.num 7), ("학교", Value.str "송도고"),
              ("EC", Value.num 1)] "EC" = some (Value.num ec) ∧
      getCol [("생중량(g)", Value.num 7), ("학교", Value.str "송도고"),
              ("EC", Value.num 1)] "학교" = some (Value.str "송도고") :=
  growth_rows_level_stamped id id SCHOOL_INFO
    [⟨"4개교_생육결과데이터.xlsx", Except.ok [("송도고", [[("생중량(g)", Value.num 7)]])]⟩]
    ("송도고", [[("생중량(g)", Value.num 7), ("학교", Value.str "송도고"),
                 ("EC", Value.num 1)]])
    [("생중량(g)", Value.num 7), ("학교", Value.str "송도고"), ("EC", Value.num 1)]
    (by decide) (by decide)

end PolarPlant

namespace PolarPlant

/-! ## C10: loader mapping invariants -/

theorem loadSchoolEnv_some_shape (nfc nfd : String → String) (s : String)
    (dir : List EnvFile) (rows : List Row)
    (h : loadSchoolEnv nfc nfd s dir = some rows) :
    ∃ src : List Row, rows = src.map (fun r => setCol r "학교" (Value.str s)) := by
  induction dir with
  | nil => cases h
  | cons f rest ih =>
    rw [loadSchoolEnv] at h
    by_cases ht : envFileTest nfc nfd s f = true
    · rw [if_pos ht] at h
      cases hc : f.content with
      | ok rows0 =>
        rw [hc] at h
        exact ⟨rows0, (Option.some_injective _ h).symm⟩
      | error msg =>
        rw [hc] at h
        exact ih h
    · rw [if_neg ht] at h
      exact ih h

theorem env_entry_mem (nfc nfd : String → String) (reg : List (String × ℚ))
    (dir : List EnvFile) (p : String × List Row)
    (hp : p ∈ (load_environment_data nfc nfd reg dir).1) :
    p.1 ∈ reg.map Prod.fst ∧ loadSchoolEnv nfc nfd p.1 dir = some p.2 := by
  induction reg with
  | nil => cases hp
  | cons t rest ih =>
    rw [load_environment_data] at hp
    cases ht : loadSchoolEnv nfc nfd t.1 dir with
    | some rows =>
      simp only [ht] at hp
      rcases List.mem_cons.mp hp with hph | hpt
      · constructor
        · rw [hph]
          exact List.mem_cons_self _ _
        · rw [hph]
          exact ht
      · rcases ih hpt with ⟨h1, h2⟩
        exact ⟨List.mem_cons_of_mem _ h1, h2⟩
    | none =>
      simp only [ht] at hp
      rcases ih hp with ⟨h1, h2⟩
      exact ⟨List.mem_cons_of_mem _ h1, h2⟩

theorem env_keys_nodup (nfc nfd : String → String) (reg : List (String × ℚ))
    (dir : List EnvFile) (hreg : (reg.map Prod.fst).Nodup) :
    ((load_environment_data nfc nfd reg dir).1.map Prod.fst).Nodup := by
  induction reg with
  | nil => simp [load_environment_data]
  | cons t rest ih =>
    have hreg' : (t.1 :: rest.map Prod.fst).Nodup := by
      rw [List.map_cons] at hreg
      exact hreg
    have hh := List.nodup_cons.mp hreg'
    rw [load_environment_data]
    cases ht : loadSchoolEnv nfc nfd t.1 dir with
    | some rows =>
      simp only [ht, List.map_cons]
      refine List.nodup_cons.mpr ⟨?_, ih hh.2⟩
      intro hmem
      rcases List.mem_map.mp hmem with ⟨x, hx, hxe⟩
      have hxk := (env_entry_mem nfc nfd rest dir x hx).1
      rw [hxe] at hxk
      exact hh.1 hxk
    | none =>
      simp only [ht]
      exact ih hh.2

theorem map_fst_upsert_replace (l : List (String × List Row)) (k : String)
    (v : List Row) :
    (l.map (fun p => if p.1 == k then (k, v) else p)).map Prod.fst =
      l.map Prod.fst := by
  induction l with
  | nil => rfl
  | cons x t ihl =>
    simp only [List.map_cons, List.cons.injEq]
    constructor
    · by_cases hk : (x.1 == k) = true
      · rw [if_pos hk]
        exact (eq_of_beq hk).symm
      · rw [if_neg hk]
    · exact ihl

theorem upsert_keys_nodup (l : List (String × List Row)) (k : String) (v : List Row)
    (h : (l.map Prod.fst).Nodup) : ((upsert l k v).map Prod.fst).Nodup := by
  rw [upsert]
  by_cases ha : l.any (fun x => x.1 == k) = true
  · rw [if_pos ha, map_fst_upsert_replace]
    exact h
  · rw [if_neg ha, List.map_append, List.nodup_append]
    refine ⟨h, List.nodup_singleton k, ?_⟩
    intro a hal har
    rcases List.mem_map.mp hal with ⟨x, hx, hxe⟩
    have hak : a = k := by simpa using har
    rw [List.any_eq_true] at ha
    refine ha ⟨x, hx, ?_⟩
    rw [hxe, hak]
    exact beq_self_eq_true k

theorem growth_sheets_keys_nodup (nfc nfd : String → String) (reg : List (String × ℚ))
    (sheets : List (String × List Row)) (acc : List (String × List Row))
    (hacc : (acc.map Prod.fst).Nodup) :
    ((load_growth_sheets nfc nfd reg acc sheets).map Prod.fst).Nodup := by
  induction sheets generalizing acc with
  | nil => exact hacc
  | cons sh rest ih =>
    rw [load_growth_sheets]
    cases hf : reg.find? (fun q => matchesTarget nfc nfd sh.1 q.1) with
    | none => exact ih acc hacc
    | some q => exact ih _ (upsert_keys_nodup acc q.1 _ hacc)

theorem growth_keys_nodup (nfc nfd : String → String) (reg : List (String × ℚ))
    (gdir : List GrowthFile) :
    ((load_growth_data nfc nfd reg gdir).map Prod.fst).Nodup := by
  rw [load_growth_data]
  cases hf : gdir.find? (fun f => matchesTarget nfc nfd f.name "4개교_생육결과데이터.xlsx") with
  | none => simp [hf]
  | some f =>
    simp only [hf]
    cases hc : f.content with
    | error msg => simp [hc]
    | ok sheets =>
      simp only [hc]
      exact growth_sheets_keys_nodup nfc nfd reg sheets [] (by simp)

/-- C10: every key of either loader's mapping is a registered group id, no
key repeats (given a duplicate-free registry), and every row stored under a
group carries that very group in its `학교` tag — no row is filed under
another group's key. -/
theorem loader_key_tag_invariant (nfc nfd : String → String) (reg : List (String × ℚ))
    (edir : List EnvFile) (gdir : List GrowthFile) (p q : String × List Row) (r r2 : Row)
    (hreg : (reg.map Prod.fst).Nodup)
    (hp : p ∈ (load_environment_data nfc nfd reg edir).1) (hr : r ∈ p.2)
    (hq : q ∈ load_growth_data nfc nfd reg gdir) (hr2 : r2 ∈ q.2) :
    p.1 ∈ reg.map Prod.fst ∧ getCol r "학교" = some (Value.str p.1) ∧
    q.1 ∈ reg.map Prod.fst ∧ getCol r2 "학교" = some (Value.str q.1) ∧
    ((load_environment_data nfc nfd reg edir).1.map Prod.fst).Nodup ∧
    ((load_growth_data nfc nfd reg gdir).map Prod.fst).Nodup := by
  rcases env_entry_mem nfc nfd reg edir p hp with ⟨hpk, hload⟩
  rcases loadSchoolEnv_some_shape nfc nfd p.1 edir p.2 hload with ⟨src, hshape⟩
  have htag : getCol r "학교" = some (Value.str p.1) := by
    rw [hshape] at hr
    rcases List.mem_map.mp hr with ⟨r0, _, hr0⟩
    rw [← hr0]
    exact getCol_setCol_self _ _ _
  rcases growth_entry_inv nfc nfd reg gdir q hq with ⟨ec, rows0, hqk, hqshape⟩
  have htag2 : getCol r2 "학교" = some (Value.str q.1) := by
    rw [hqshape] at hr2
    exact (tagGrowthRows_getCol q.1 ec rows0 r2 hr2).2
  exact ⟨hpk, htag, List.mem_map_of_mem Prod.fst hqk, htag2,
    env_keys_nodup nfc nfd reg edir hreg, growth_keys_nodup nfc nfd reg gdir⟩

/-- Witness for C10 at a concrete one-file, one-sheet run. -/
theorem loader_key_tag_invariant_witness :
    "송도고" ∈ SCHOOL_INFO.map Prod.fst ∧
    getCol [("temperature", Value.num 20), ("학교", Value.str "송도고")] "학교" =
      some (Value.str "송도고") ∧
    "하늘고" ∈ SCHOOL_INFO.map Prod.fst ∧
    getCol [("생중량(g)", Value.num 7), ("학교", Value.str "하늘고"),
            ("EC", Value.num 2)] "학교" = some (Value.str "하늘고") ∧
    ((load_environment_data id id SCHOOL_INFO
        [⟨"송도고_환경데이터.csv",
          Except.ok [[("temperature", Value.num 20)]]⟩]).1.map Prod.fst).Nodup ∧
    ((load_growth_data id id SCHOOL_INFO
        [⟨"4개교_생육결과데이터.xlsx",
          Except.ok [("하늘고", [[("생중량(g)", Value.num 7)]])]⟩]).map Prod.fst).Nodup :=
  loader_key_tag_invariant id id SCHOOL_INFO
    [⟨"송도고_환경데이터.csv", Except.ok [[("temperature", Value.num 20)]]⟩]
    [⟨"4개교_생육결과데이터.xlsx", Except.ok [("하늘고", [[("생중량(g)", Value.num 7)]])]⟩]
    ("송도고", [[("temperature", Value.num 20), ("학교", Value.str "송도고")]])
    ("하늘고", [[("생중량(g)", Value.num 7), ("학교", Value.str "하늘고"),
                 ("EC", Value.num 2)]])
    [("temperature", Value.num 20), ("학교", Value.str "송도고")]
    [("생중량(g)", Value.num 7), ("학교", Value.str "하늘고"), ("EC", Value.num 2)]
    (by decide) (by decide) (by decide) (by decide) (by decide)

end PolarPlant

namespace PolarPlant

/-! ## C6: a missing environment file is recoverable per group -/

theorem loadSchoolEnv_append_some (nfc nfd : String → String) (s : String)
    (l1 l2 : List EnvFile) (rows : List Row)
    (h : loadSchoolEnv nfc nfd s l1 = some rows) :
    loadSchoolEnv nfc nfd s (l1 ++ l2) = some rows := by
  induction l1 with
  | nil => cases h
  | cons f rest ih =>
    rw [List.cons_append, loadSchoolEnv]
    rw [loadSchoolEnv] at h
    by_cases ht : envFileTest nfc nfd s f = true
    · rw [if_pos ht] at h ⊢
      cases hc : f.content with
      | ok rows0 =>
        rw [hc] at h
        exact h
      | error msg =>
        rw [hc] at h
        exact ih h
    · rw [if_neg ht] at h ⊢
      exact ih h

theorem loadSchoolEnv_append_none (nfc nfd : String → String) (s : String)
    (l1 l2 : List EnvFile) (h : loadSchoolEnv nfc nfd s l1 = none) :
    loadSchoolEnv nfc nfd s (l1 ++ l2) = loadSchoolEnv nfc nfd s l2 := by
  induction l1 with
  | nil => rfl
  | cons f rest ih =>
    rw [List.cons_append, loadSchoolEnv]
    rw [loadSchoolEnv] at h
    by_cases ht : envFileTest nfc nfd s f = true
    · rw [if_pos ht] at h ⊢
      cases hc : f.content with
      | ok rows0 =>
        rw [hc] at h
        exact Option.noConfusion h
      | error msg =>
        rw [hc] at h
        exact ih h
    · rw [if_neg ht] at h ⊢
      exact ih h

theorem loadSchoolEnv_none_of_all_fail (nfc nfd : String → String) (s : String)
    (dir : List EnvFile) (h : ∀ g ∈ dir, envFileTest nfc nfd s g = false) :
    loadSchoolEnv nfc nfd s dir = none := by
  induction dir with
  | nil => rfl
  | cons f rest ih =>
    rw [loadSchoolEnv]
    rw [if_neg (by rw [h f (List.mem_cons_self f rest)]; exact Bool.false_ne_true)]
    exact ih (fun g hg => h g (List.mem_cons_of_mem f hg))

theorem env_keys_not_mem (nfc nfd : String → String) (reg : List (String × ℚ))
    (dir : List EnvFile) (s : String)
    (hnone : loadSchoolEnv nfc nfd s dir = none) :
    s ∉ (load_environment_data nfc nfd reg dir).1.map Prod.fst := by
  intro hmem
  rcases List.mem_map.mp hmem with ⟨x, hx, hxe⟩
  have h2 := (env_entry_mem nfc nfd reg dir x hx).2
  rw [hxe, hnone] at h2
  cases h2

theorem env_warning_mem (nfc nfd : String → String) (reg : List (String × ℚ))
    (dir : List EnvFile) (s : String) (hs : s ∈ reg.map Prod.fst)
    (hnone : loadSchoolEnv nfc nfd s dir = none) :
    s ∈ (load_environment_data nfc nfd reg dir).2 := by
  induction reg with
  | nil => simp at hs
  | cons t rest ih =>
    rw [load_environment_data]
    rw [List.map_cons] at hs
    rcases List.mem_cons.mp hs with hst | hsr
    · have h1 : loadSchoolEnv nfc nfd t.1 dir = none := by
        rw [← hst]
        exact hnone
      simp only [h1]
      rw [hst]
      exact List.mem_cons_self _ _
    · cases h : loadSchoolEnv nfc nfd t.1 dir with
      | some rows =>
        simp only [h]
        exact ih hsr
      | none =>
        simp only [h]
        exact List.mem_cons_of_mem _ (ih hsr)

theorem env_filter_eq (nfc nfd : String → String) (reg : List (String × ℚ))
    (dir dir' : List EnvFile) (s : String) (rows' : List Row)
    (hothers : ∀ t ∈ reg.map Prod.fst, t ≠ s →
      loadSchoolEnv nfc nfd t dir' = loadSchoolEnv nfc nfd t dir)
    (hnone : loadSchoolEnv nfc nfd s dir = none)
    (hsome : loadSchoolEnv nfc nfd s dir' = some rows') :
    (load_environment_data nfc nfd reg dir').1.filter (fun x => x.1 != s) =
      (load_environment_data nfc nfd reg dir).1 := by
  induction reg with
  | nil => rfl
  | cons t rest ih =>
    have ihh := ih (fun t' ht' => hothers t' (by rw [List.map_cons]; exact List.mem_cons_of_mem _ ht'))
    rw [load_environment_data, load_environment_data]
    by_cases hts : t.1 = s
    · have h1 : loadSchoolEnv nfc nfd t.1 dir = none := by
        rw [hts]
        exact hnone
      have h2 : loadSchoolEnv nfc nfd t.1 dir' = some rows' := by
        rw [hts]
        exact hsome
      simp only [h1, h2]
      rw [List.filter_cons]
      have hb : (t.1 != s) = false := by
        rw [hts]
        simp
      rw [hb]
      simp only [Bool.false_eq_true, if_false]
      exact ihh
    · have hto := hothers t.1
        (by rw [List.map_cons]; exact List.mem_cons_self _ _) hts
      cases h : loadSchoolEnv nfc nfd t.1 dir with
      | some rows =>
        have h' : loadSchoolEnv nfc nfd t.1 dir' = some rows := by
          rw [hto]
          exact h
        simp only [h, h']
        rw [List.filter_cons]
        have hb : (t.1 != s) = true := bne_iff_ne.mpr hts
        rw [hb]
        simp only [if_true]
        rw [ihh]
      | none =>
        have h' : loadSchoolEnv nfc nfd t.1 dir' = none := by
          rw [hto]
          exact h
        simp only [h, h']
        exact ihh

/-- C6: if no file in the directory matches a registered school, that school
is omitted from the loaded mapping, a warning naming it is recorded, and the
data of every OTHER school — in particular its summary row — is identical to
a run in which a readable file for the missing school (matching only it) is
present: filtering that school out of the enlarged run's mapping and summary
recovers the original run exactly. -/
theorem env_missing_group_recoverable (nfc nfd : String → String)
    (reg : List (String × ℚ)) (dir : List EnvFile) (s : String) (f : EnvFile)
    (frows : List Row)
    (hs : s ∈ reg.map Prod.fst)
    (habs : ∀ g ∈ dir, envFileTest nfc nfd s g = false)
    (hmatch : envFileTest nfc nfd s f = true)
    (hok : f.content = Except.ok frows)
    (hother : ∀ t ∈ reg.map Prod.fst, t ≠ s → envFileTest nfc nfd t f = false) :
    s ∉ (load_environment_data nfc nfd reg dir).1.map Prod.fst ∧
    s ∈ (load_environment_data nfc nfd reg dir).2 ∧
    (load_environment_data nfc nfd reg (dir ++ [f])).1.filter (fun x => x.1 != s) =
      (load_environment_data nfc nfd reg dir).1 ∧
    (summarizeEnvironment reg (load_environment_data nfc nfd reg (dir ++ [f])).1).filter
        (fun row => row.school != s) =
      summarizeEnvironment reg (load_environment_data nfc nfd reg dir).1 := by
  have hnone := loadSchoolEnv_none_of_all_fail nfc nfd s dir habs
  have hsome : loadSchoolEnv nfc nfd s (dir ++ [f]) =
      some (frows.map (fun r => setCol r "학교" (Value.str s))) := by
    rw [loadSchoolEnv_append_none nfc nfd s dir [f] hnone, loadSchoolEnv,
      if_pos hmatch, hok]
  have hothers : ∀ t ∈ reg.map Prod.fst, t ≠ s →
      loadSchoolEnv nfc nfd t (dir ++ [f]) = loadSchoolEnv nfc nfd t dir := by
    intro t ht hts
    cases h : loadSchoolEnv nfc nfd t dir with
    | some rows => exact loadSchoolEnv_append_some nfc nfd t dir [f] rows h
    | none =>
      rw [loadSchoolEnv_append_none nfc nfd t dir [f] h, loadSchoolEnv,
        if_neg (by rw [hother t ht hts]; exact Bool.false_ne_true)]
      rfl
  have hfe := env_filter_eq nfc nfd reg dir (dir ++ [f]) s _ hothers hnone hsome
  refine ⟨env_keys_not_mem nfc nfd reg dir s hnone,
    env_warning_mem nfc nfd reg dir s hs hnone, hfe, ?_⟩
  rw [summarizeEnvironment, summarizeEnvironment, List.filter_map]
  exact congrArg (List.map (envRowFor reg)) hfe

/-- Witness for C6: the first school's file is absent from an empty
directory; adding an empty readable file for it leaves the other schools'
(and the filtered summary's) results unchanged. -/
theorem env_missing_group_recoverable_witness :
    "송도고" ∉ (load_environment_data id id SCHOOL_INFO []).1.map Prod.fst ∧
    "송도고" ∈ (load_environment_data id id SCHOOL_INFO []).2 ∧
    (load_environment_data id id SCHOOL_INFO
        ([] ++ [⟨"송도고_환경데이터.csv", Except.ok []⟩])).1.filter
        (fun x => x.1 != "송도고") =
      (load_environment_data id id SCHOOL_INFO []).1 ∧
    (summarizeEnvironment SCHOOL_INFO
        (load_environment_data id id SCHOOL_INFO
          ([] ++ [⟨"송도고_환경데이터.csv", Except.ok []⟩])).1).filter
        (fun row => row.school != "송도고") =
      summarizeEnvironment SCHOOL_INFO (load_environment_data id id SCHOOL_INFO []).1 :=
  env_missing_group_recoverable id id SCHOOL_INFO [] "송도고"
    ⟨"송도고_환경데이터.csv", Except.ok []⟩ []
    (by decide) (by decide) (by decide) rfl (by decide)

end PolarPlant
